import Mathlib

/-!
Verification of the scribo room/round lifecycle coordinator (the Socket.IO +
Redis server in the repository). The server's data model, store helpers and
event handlers are shallowly embedded below; timestamps are `Nat`
milliseconds, the Redis hash for a room's meta is a record of optional
fields (the server only ever stores `String(value)` of typed values, and
`Number`/`String` round-trip on those, so we keep the typed values), and
the player/drawing key spaces are association lists keyed by
(room id, session id) mirroring the `room:{id}:player:{sid}` and
`room:{id}:graph:{sid}` key layout.
-/

namespace Scribo

/-- The raw Redis hash at `room:{id}:meta`: each field is present or absent.
A missing hash is the all-`none` record (HGETALL of a missing key is `{}`). -/
structure RawMeta where
  fee : Option String
  createdAt : Option Nat
  asset : Option String
  roundEnd : Option Nat
  owner : Option String
deriving Repr, DecidableEq

def RawMeta.empty : RawMeta :=
  { fee := none, createdAt := none, asset := none, roundEnd := none, owner := none }

/-- The `RoomMeta` interface of the server. -/
structure RoomMeta where
  fee : String
  createdAt : Nat
  asset : Option String
  roundEnd : Option Nat
  owner : Option String
deriving Repr, DecidableEq

/-- `parseRoomMeta(raw)`: `fee = raw.fee ?? ""`,
`createdAt = raw.createdAt ? Number(raw.createdAt) : Date.now()`,
`roundEnd = raw.roundEnd ? Number(raw.roundEnd) : null`, `asset`/`owner`
passed through.  Stored numeric strings are non-empty hence truthy, so the
truthiness tests coincide with presence; `Date.now()` is the `now` argument. -/
def parseRoomMeta (raw : RawMeta) (now : Nat) : RoomMeta :=
  { fee := raw.fee.getD ""
  , createdAt := raw.createdAt.getD now
  , asset := raw.asset
  , roundEnd := raw.roundEnd
  , owner := raw.owner }

/-- The raw Redis hash at `room:{id}:player:{sid}`. -/
structure RawPlayer where
  nickname : Option String
  wallet : Option String
  joinedAt : Option Nat
deriving Repr, DecidableEq

/-- The `PlayerData` interface of the server. -/
structure PlayerData where
  nickname : String
  wallet : String
  joinedAt : Nat
deriving Repr, DecidableEq

/-- `parsePlayerData(raw)` with defaults `""`, `""`, `Date.now()`. -/
def parsePlayerData (raw : RawPlayer) (now : Nat) : PlayerData :=
  { nickname := raw.nickname.getD ""
  , wallet := raw.wallet.getD ""
  , joinedAt := raw.joinedAt.getD now }

/-- A `Partial<RoomMeta>` argument to `setRoomMeta`: `none` stands for a
field that is absent, `undefined`, or `null` — `setRoomMeta` skips all
three alike (`value !== undefined && value !== null`). -/
structure MetaPatch where
  fee : Option String := none
  createdAt : Option Nat := none
  asset : Option String := none
  roundEnd : Option Nat := none
  owner : Option String := none
deriving Repr, DecidableEq

/-- The HSET performed by `setRoomMeta`: write exactly the supplied
(non-`undefined`, non-`null`) fields, leave the rest untouched.  When no
field is supplied the server skips the HSET, which is the identity merge. -/
def hsetMeta (raw : RawMeta) (p : MetaPatch) : RawMeta :=
  { fee := match p.fee with | some v => some v | none => raw.fee
  , createdAt := match p.createdAt with | some v => some v | none => raw.createdAt
  , asset := match p.asset with | some v => some v | none => raw.asset
  , roundEnd := match p.roundEnd with | some v => some v | none => raw.roundEnd
  , owner := match p.owner with | some v => some v | none => raw.owner }

/-- A `Partial<PlayerData>` argument to `setPlayer`. -/
structure PlayerPatch where
  nickname : Option String := none
  wallet : Option String := none
  joinedAt : Option Nat := none
deriving Repr, DecidableEq

/-- The HSET performed by `setPlayer`. -/
def hsetPlayer (raw : RawPlayer) (p : PlayerPatch) : RawPlayer :=
  { nickname := match p.nickname with | some v => some v | none => raw.nickname
  , wallet := match p.wallet with | some v => some v | none => raw.wallet
  , joinedAt := match p.joinedAt with | some v => some v | none => raw.joinedAt }

/-- Association-list lookup keyed by (room id, session id): the value at
the (unique) matching key, the analogue of `GET`/`HGETALL` of one key. -/
def alGet : List ((String × String) × α) → (String × String) → Option α
  | [], _ => none
  | e :: tl, k => if e.1 = k then some e.2 else alGet tl k

/-- Overwrite the entry at key `k` (keys stay unique). -/
def alSet (l : List ((String × String) × α)) (k : String × String) (v : α) :
    List ((String × String) × α) :=
  (k, v) :: l.filter (fun e => e.1 ≠ k)

/-- `DEL` of key `k`. -/
def alDel (l : List ((String × String) × α)) (k : String × String) :
    List ((String × String) × α) :=
  l.filter (fun e => e.1 ≠ k)

/-- The external store: room meta hashes, player hashes, drawing strings. -/
structure Store where
  meta : String → RawMeta
  players : List ((String × String) × RawPlayer)
  drawings : List ((String × String) × String)

/-- `setRoomMeta(roomId, meta)` applied to the meta key space. -/
def setRoomMeta (ms : String → RawMeta) (roomId : String) (p : MetaPatch) :
    String → RawMeta :=
  fun r => if r = roomId then hsetMeta (ms roomId) p else ms r

/-- `getRoomMeta(roomId)`. -/
def getRoomMeta (ms : String → RawMeta) (roomId : String) (now : Nat) : RoomMeta :=
  parseRoomMeta (ms roomId) now

/-- `getAllPlayers(roomId)`: scan `room:{roomId}:player:*` and parse each hash. -/
def getAllPlayers (st : Store) (roomId : String) (now : Nat) :
    List (String × PlayerData) :=
  st.players.filterMap (fun e =>
    if e.1.1 = roomId then some (e.1.2, parsePlayerData e.2 now) else none)

/-- `getAllDrawings(roomId)`: scan `room:{roomId}:graph:*`; the
`if (drawing)` truthiness test drops empty strings. -/
def getAllDrawings (st : Store) (roomId : String) : List (String × String) :=
  st.drawings.filterMap (fun e =>
    if e.1.1 = roomId ∧ e.2 ≠ "" then some (e.1.2, e.2) else none)

/-- One entry of the `users` broadcast payload. -/
structure UserEntry where
  id : String
  nickname : String
  wallet : String
  isSelf : Bool
deriving Repr, DecidableEq

/-- The payload built by `broadcastUsers(roomId, selfId)`. -/
def usersPayload (st : Store) (roomId selfId : String) (now : Nat) :
    List UserEntry :=
  (getAllPlayers st roomId now).map (fun e =>
    { id := e.1, nickname := e.2.nickname, wallet := e.2.wallet
    , isSelf := e.1 = selfId })

/-- Who an outbound emit is addressed to: `socket.emit` (the caller only)
or `io.to(roomId).emit` (every connection joined to the room). -/
inductive Audience where
  | toCaller (sid : String)
  | toRoom (roomId : String)
deriving Repr, DecidableEq

/-- The outbound events of the server. -/
inductive EventMsg where
  | roomCreated (roomId : String)
  | roomCreateError (error : String)
  | usersEvt (payload : List UserEntry)
  | metaEvt (m : RoomMeta)
  | roundStarted (roundEnd : Nat) (owner : Option String)
  | startRoundError (error : String)
  | timerEvt (timeLeft : Nat)
  | drawingEvt (id : String) (data : String)
  | roundEndEvt (m : RoomMeta) (players : List (String × PlayerData))
      (drawings : List (String × String))
deriving Repr, DecidableEq

/-- World state: the store, plus Socket.IO's room membership —
`members r` is the set of session ids joined to broadcast room `r`, and
`srooms sid` is `socket.rooms` for the connection `sid` (it contains
`sid` itself, Socket.IO auto-joins every socket to its own id). -/
structure World where
  store : Store
  members : String → List String
  srooms : String → List String

/-- A connection `sid` receives an emitted event iff it is the addressed
caller, or it has joined the addressed broadcast room. -/
def receivesB (w : World) (sid : String) : Audience → Bool
  | Audience.toCaller c => sid = c
  | Audience.toRoom r => (w.members r).contains sid

/-- The `create_lobby_room` handler.  Payload fields other than `roomId`
are kept optional (`undefined` destructures to `none`); `!roomId` is the
JS falsiness test, i.e. the empty string.  On the happy path it merges the
initial meta (`roundEnd: null` is skipped by `setRoomMeta`), writes the
caller's player record via `setPlayer`, and acknowledges the caller only.
It does not call `socket.join`. -/
def createLobbyRoom (w : World) (sid : String)
    (entryFee wallet nickname : Option String) (roomId : String) (now : Nat) :
    World × List (Audience × EventMsg) :=
  if roomId = "" then
    (w, [(Audience.toCaller sid,
          EventMsg.roomCreateError "No roomId from contract.")])
  else
    let ms := setRoomMeta w.store.meta roomId
      { fee := entryFee, createdAt := some now, roundEnd := none, owner := wallet }
    let prev := (alGet w.store.players (roomId, sid)).getD
      { nickname := none, wallet := none, joinedAt := none }
    let rec1 := hsetPlayer prev
      { nickname := nickname, wallet := wallet, joinedAt := some now }
    let st :=
      { meta := ms
      , players := alSet w.store.players (roomId, sid) rec1
      , drawings := w.store.drawings }
    ({ w with store := st },
     [(Audience.toCaller sid, EventMsg.roomCreated roomId)])

/-- The `join` handler: `socket.join(roomId)`, merge `asset` into the room
meta when supplied, HSET the full player record, then broadcast the users
list and the meta to the whole room. -/
def joinRoom (w : World) (sid roomId nickname wallet : String)
    (asset : Option String) (now : Nat) : World × List (Audience × EventMsg) :=
  let members1 := fun r =>
    if r = roomId then
      (if (w.members roomId).contains sid then w.members roomId
       else sid :: w.members roomId)
    else w.members r
  let srooms1 := fun s =>
    if s = sid then
      (if (w.srooms sid).contains roomId then w.srooms sid
       else roomId :: w.srooms sid)
    else w.srooms s
  let ms := setRoomMeta w.store.meta roomId { asset := asset }
  let st :=
    { meta := ms
    , players := alSet w.store.players (roomId, sid)
        { nickname := some nickname, wallet := some wallet, joinedAt := some now }
    , drawings := w.store.drawings }
  let w1 : World := { store := st, members := members1, srooms := srooms1 }
  (w1,
   [(Audience.toRoom roomId, EventMsg.usersEvt (usersPayload st roomId sid now)),
    (Audience.toRoom roomId, EventMsg.metaEvt (getRoomMeta ms roomId now))])

/-- The JS guard `meta.roundEnd && Number(meta.roundEnd) > Date.now()`:
a stored `roundEnd` is truthy iff non-zero. -/
def roundActive (m : RoomMeta) (now : Nat) : Bool :=
  match m.roundEnd with
  | none => false
  | some r => decide (r ≠ 0) && decide (r > now)

/-- The `start_round` handler.  Returns the new world, the emitted events,
and `some capturedRoundEnd` when `startTimer` installs a one-second
interval (it re-reads the meta and bails out on a falsy `roundEnd`). -/
def startRoundH (w : World) (sid roomId : String) (wallet : Option String)
    (now : Nat) : World × List (Audience × EventMsg) × Option Nat :=
  let m := getRoomMeta w.store.meta roomId now
  if wallet ≠ m.owner then
    (w, [(Audience.toCaller sid,
          EventMsg.startRoundError "Only room owner can start round.")], none)
  else if roundActive m now then
    (w, [(Audience.toCaller sid,
          EventMsg.startRoundError "Round already started.")], none)
  else
    let roundEnd := now + 5 * 60 * 1000
    let ms := setRoomMeta w.store.meta roomId { roundEnd := some roundEnd }
    let st := { w.store with meta := ms }
    let m2 := getRoomMeta ms roomId now
    let timer := match m2.roundEnd with
      | none => none
      | some r => if r = 0 then none else some r
    ({ w with store := st },
     [(Audience.toRoom roomId, EventMsg.roundStarted roundEnd m.owner)],
     timer)

/-- The `set_nickname` handler: `setPlayer` the nickname, rebroadcast users. -/
def setNicknameH (w : World) (sid roomId nickname : String) (now : Nat) :
    World × List (Audience × EventMsg) :=
  let prev := (alGet w.store.players (roomId, sid)).getD
    { nickname := none, wallet := none, joinedAt := none }
  let rec1 := hsetPlayer prev { nickname := some nickname }
  let st :=
    { w.store with players := alSet w.store.players (roomId, sid) rec1 }
  ({ w with store := st },
   [(Audience.toRoom roomId, EventMsg.usersEvt (usersPayload st roomId sid now))])

/-- The `drawing_submit` handler: `SET room:{roomId}:graph:{sid}` to the
blob (overwriting), then broadcast `drawing {id, data}` to the whole room. -/
def drawingSubmit (w : World) (sid roomId drawing : String) :
    World × List (Audience × EventMsg) :=
  let st := { w.store with
    drawings := alSet w.store.drawings (roomId, sid) drawing }
  ({ w with store := st },
   [(Audience.toRoom roomId, EventMsg.drawingEvt sid drawing)])

/-- The body of the `disconnect` loop for one room: `DEL` the player and
drawing keys for this connection, then `broadcastUsers(room, socket.id)`. -/
def discStep (sid : String) (now : Nat)
    (acc : Store × List (Audience × EventMsg)) (room : String) :
    Store × List (Audience × EventMsg) :=
  let st1 :=
    { meta := acc.1.meta
    , players := alDel acc.1.players (room, sid)
    , drawings := alDel acc.1.drawings (room, sid) }
  (st1, acc.2 ++
    [(Audience.toRoom room, EventMsg.usersEvt (usersPayload st1 room sid now))])

/-- The `disconnect` handler: filter `socket.rooms` by
`id.startsWith("room:")`, and for each surviving id delete the player and
drawing keys and rebroadcast the users list. -/
def onDisconnect (w : World) (sid : String) (now : Nat) :
    World × List (Audience × EventMsg) :=
  let rooms := (w.srooms sid).filter (fun id => id.startsWith "room:")
  let res := rooms.foldl (discStep sid now) (w.store, [])
  ({ w with store := res.1 }, res.2)

/-- `Math.max(0, Math.floor((roundEnd - now) / 1000))`: `Nat` subtraction
truncates at zero and `Nat` division is the floor, so this is exact. -/
def timeLeft (roundEnd now : Nat) : Nat := (roundEnd - now) / 1000

/-- The event stream produced by the interval installed by `startTimer`:
the k-th callback runs at `now + 1000 * k`, broadcasts `timer timeLeft`,
and when `timeLeft` hits 0 clears the interval and broadcasts the single
consolidated `round_end` read back from the store (the store is the one at
finalization; during a pure countdown it is unchanged). -/
def timerEvents (st : Store) (roomId : String) (roundEnd now : Nat) :
    List (Audience × EventMsg) :=
  if h : timeLeft roundEnd (now + 1000) = 0 then
    [(Audience.toRoom roomId, EventMsg.timerEvt 0),
     (Audience.toRoom roomId, EventMsg.roundEndEvt
        (getRoomMeta st.meta roomId (now + 1000))
        (getAllPlayers st roomId (now + 1000))
        (getAllDrawings st roomId))]
  else
    (Audience.toRoom roomId, EventMsg.timerEvt (timeLeft roundEnd (now + 1000))) ::
      timerEvents st roomId roundEnd (now + 1000)
termination_by roundEnd - now
decreasing_by
  simp only [timeLeft] at h
  omega

/-- The countdown list `[t, t-1, ..., 1, 0]`. -/
def countdown : Nat → List Nat
  | 0 => [0]
  | t + 1 => (t + 1) :: countdown t

/-- One inbound client event, to quantify over every store-mutating
operation of the server at once. -/
inductive Op where
  | createOp (sid : String) (entryFee wallet nickname : Option String)
      (roomId : String)
  | joinOp (sid roomId nickname wallet : String) (asset : Option String)
  | startOp (sid roomId : String) (wallet : Option String)
  | nickOp (sid roomId nickname : String)
  | drawOp (sid roomId drawing : String)
  | discOp (sid : String)
deriving Repr, DecidableEq

/-- Dispatch an inbound event at time `now`. -/
def stepOp (w : World) (op : Op) (now : Nat) : World × List (Audience × EventMsg) :=
  match op with
  | Op.createOp sid entryFee wallet nickname roomId =>
      createLobbyRoom w sid entryFee wallet nickname roomId now
  | Op.joinOp sid roomId nickname wallet asset =>
      joinRoom w sid roomId nickname wallet asset now
  | Op.startOp sid roomId wallet =>
      let r := startRoundH w sid roomId wallet now
      (r.1, r.2.1)
  | Op.nickOp sid roomId nickname => setNicknameH w sid roomId nickname now
  | Op.drawOp sid roomId drawing => drawingSubmit w sid roomId drawing
  | Op.discOp sid => onDisconnect w sid now

/-- Run a trace of timestamped inbound events. -/
def runOps (w : World) : List (Op × Nat) → World
  | [] => w
  | p :: rest => runOps (stepOp w p.1 p.2).1 rest

/-- Does an emitted event carry a `round_end` payload? -/
def isRoundEndEvt : Audience × EventMsg → Bool
  | (_, EventMsg.roundEndEvt _ _ _) => true
  | _ => false

/-- A fresh store and an idle connection table. -/
def emptyWorld : World :=
  { store := { meta := fun _ => RawMeta.empty, players := [], drawings := [] }
  , members := fun _ => []
  , srooms := fun s => [s] }

/-- The last value supplied for one field across a sequence of patches
(later patches override earlier ones). -/
def lastSet (f : MetaPatch → Option α) : List MetaPatch → Option α
  | [] => none
  | p :: tl => match lastSet f tl with | some v => some v | none => f p

/-- A world in which connection `s1` has joined room `abc` (whose id does
not start with `room:`), with its player record and a submitted drawing in
the store. -/
def discWorld : World :=
  { store :=
    { meta := fun _ => RawMeta.empty
    , players := [(("abc", "s1"),
        { nickname := some "bob", wallet := some "0xW", joinedAt := some 7 })]
    , drawings := [(("abc", "s1"), "blob")] }
  , members := fun r => if r = "abc" then ["s1"] else []
  , srooms := fun s => if s = "s1" then ["s1", "abc"] else [s] }

/-- A world whose store already holds meta for room `r1`: a round that
ended at time 1, fee `"5"`, owner `W1`.  Used to probe `create_lobby_room`
against a previously seen room id. -/
def priorWorld : World :=
  { store :=
    { meta := fun id => if id = "r1" then
        { fee := some "5", createdAt := some 100, asset := none
        , roundEnd := some 1, owner := some "W1" }
      else RawMeta.empty
    , players := [], drawings := [] }
  , members := fun _ => []
  , srooms := fun s => [s] }

-- Basic lookup lemmas for the (room, session)-keyed association lists.

theorem alGet_alSet_self (l : List ((String × String) × α)) (k : String × String)
    (v : α) : alGet (alSet l k v) k = some v := by
  simp [alGet, alSet]

theorem alDel_cons_eq (e : (String × String) × α) (tl : List ((String × String) × α))
    (k : String × String) (hek : e.1 = k) : alDel (e :: tl) k = alDel tl k := by
  simp [alDel, List.filter_cons, hek]

theorem alDel_cons_ne (e : (String × String) × α) (tl : List ((String × String) × α))
    (k : String × String) (hek : ¬ e.1 = k) :
    alDel (e :: tl) k = e :: alDel tl k := by
  simp [alDel, List.filter_cons, hek]

theorem alGet_alDel_ne (l : List ((String × String) × α))
    (k k' : String × String) (h : k' ≠ k) :
    alGet (alDel l k) k' = alGet l k' := by
  induction l with
  | nil => rfl
  | cons e tl ih =>
    by_cases hek : e.1 = k
    · have hek' : ¬ e.1 = k' := fun hh => h (by rw [← hh]; exact hek)
      rw [alDel_cons_eq e tl k hek, ih]
      simp [alGet, hek']
    · rw [alDel_cons_ne e tl k hek]
      by_cases hek' : e.1 = k'
      · simp [alGet, hek']
      · simp [alGet, hek', ih]

theorem alGet_alDel_self (l : List ((String × String) × α)) (k : String × String) :
    alGet (alDel l k) k = none := by
  induction l with
  | nil => rfl
  | cons e tl ih =>
    by_cases hek : e.1 = k
    · rw [alDel_cons_eq e tl k hek]
      exact ih
    · rw [alDel_cons_ne e tl k hek]
      simp [alGet, hek, ih]

theorem alGet_alSet_ne (l : List ((String × String) × α)) (k k' : String × String)
    (v : α) (h : k' ≠ k) : alGet (alSet l k v) k' = alGet l k' := by
  have hk : ¬ (k = k') := fun hh => h hh.symm
  show alGet ((k, v) :: alDel l k) k' = alGet l k'
  rw [show alGet ((k, v) :: alDel l k) k' = alGet (alDel l k) k' from by
    simp [alGet, hk]]
  exact alGet_alDel_ne l k k' h

theorem alSet_unique (l : List ((String × String) × α)) (k : String × String)
    (v : α) :
    ((alSet l k v).filter (fun e => e.1 = k)).length = 1 := by
  have haux : ∀ m : List ((String × String) × α),
      ((alDel m k).filter (fun e => e.1 = k)).length = 0 := by
    intro m
    induction m with
    | nil => rfl
    | cons e tl ih =>
      by_cases hek : e.1 = k
      · rw [alDel_cons_eq e tl k hek]
        exact ih
      · rw [alDel_cons_ne e tl k hek]
        simp only [List.filter_cons, decide_eq_false hek, if_false]
        exact ih
  show (((k, v) :: alDel l k).filter (fun e => e.1 = k)).length = 1
  simp [List.filter_cons, haux l]

-- Folding `hsetMeta` over a patch sequence: per-field last-writer-wins.

theorem foldl_hsetMeta_proj (g : RawMeta → Option α) (f : MetaPatch → Option α)
    (hgf : ∀ raw p, g (hsetMeta raw p) =
      match f p with | some v => some v | none => g raw) :
    ∀ (ps : List MetaPatch) (raw : RawMeta),
      g (ps.foldl hsetMeta raw) =
        match lastSet f ps with | some v => some v | none => g raw := by
  intro ps
  induction ps with
  | nil => intro raw; rfl
  | cons p tl ih =>
    intro raw
    show g (tl.foldl hsetMeta (hsetMeta raw p)) = _
    rw [ih (hsetMeta raw p)]
    cases hlt : lastSet f tl with
    | some v => simp [lastSet, hlt]
    | none =>
      rw [hgf raw p]
      cases hfp : f p <;> simp [lastSet, hlt, hfp]

theorem foldl_setRoomMeta_at (roomId : String) :
    ∀ (ps : List MetaPatch) (ms : String → RawMeta),
      (ps.foldl (fun m p => setRoomMeta m roomId p) ms) roomId =
        ps.foldl hsetMeta (ms roomId) := by
  intro ps
  induction ps with
  | nil => intro ms; rfl
  | cons p tl ih =>
    intro ms
    show (tl.foldl (fun m p => setRoomMeta m roomId p) (setRoomMeta ms roomId p)) roomId = _
    rw [ih (setRoomMeta ms roomId p)]
    simp [setRoomMeta]

-- Unfolding equations for the timer event stream.

theorem timerEvents_stop (st : Store) (roomId : String) (roundEnd now : Nat)
    (h : timeLeft roundEnd (now + 1000) = 0) :
    timerEvents st roomId roundEnd now =
      [(Audience.toRoom roomId, EventMsg.timerEvt 0),
       (Audience.toRoom roomId, EventMsg.roundEndEvt
          (getRoomMeta st.meta roomId (now + 1000))
          (getAllPlayers st roomId (now + 1000))
          (getAllDrawings st roomId))] := by
  rw [timerEvents]
  simp [h]

theorem timerEvents_tick (st : Store) (roomId : String) (roundEnd now t : Nat)
    (h : timeLeft roundEnd (now + 1000) = t + 1) :
    timerEvents st roomId roundEnd now =
      (Audience.toRoom roomId, EventMsg.timerEvt (t + 1)) ::
        timerEvents st roomId roundEnd (now + 1000) := by
  rw [timerEvents]
  simp [h]

theorem timeLeft_succ (roundEnd now t : Nat)
    (h : timeLeft roundEnd (now + 1000) = t + 1) :
    timeLeft roundEnd (now + 1000 + 1000) = t := by
  simp only [timeLeft] at *
  omega

-- Properties of the countdown list.

theorem countdown_head? (t : Nat) : (countdown t).head? = some t := by
  cases t <;> rfl

theorem countdown_getElem? (t : Nat) :
    ∀ k, k ≤ t → (countdown t)[k]? = some (t - k) := by
  induction t with
  | zero =>
    intro k hk
    interval_cases k
    rfl
  | succ s ih =>
    intro k hk
    rw [show countdown (s + 1) = (s + 1) :: countdown s from rfl]
    cases k with
    | zero => simp
    | succ j =>
      rw [List.getElem?_cons_succ, ih j (by omega)]
      congr 1
      omega

theorem countdown_chain (t : Nat) :
    List.Chain' (fun a b => b ≤ a) (countdown t) := by
  induction t with
  | zero => simp [countdown]
  | succ s ih =>
    rw [show countdown (s + 1) = (s + 1) :: countdown s from rfl,
      List.chain'_cons']
    refine ⟨?_, ih⟩
    intro y hy
    rw [countdown_head? s] at hy
    simp at hy
    omega

theorem countdown_getLast? (t : Nat) : (countdown t).getLast? = some 0 := by
  induction t with
  | zero => rfl
  | succ s ih =>
    cases s with
    | zero => rfl
    | succ u =>
      rw [show countdown (u + 1 + 1) = (u + 2) :: (u + 1) :: countdown u from rfl,
        List.getLast?_cons_cons]
      exact ih

/-- Closed form of the interval's event stream: a strictly descending
countdown of `timer` broadcasts ending in 0, followed by the single
`round_end` broadcast, read from the store at the final tick's time. -/
theorem timerEvents_closed (st : Store) (roomId : String) (roundEnd : Nat) :
    ∀ (t0 now : Nat), timeLeft roundEnd (now + 1000) = t0 →
      timerEvents st roomId roundEnd now =
        (countdown t0).map
          (fun t => (Audience.toRoom roomId, EventMsg.timerEvt t)) ++
        [(Audience.toRoom roomId, EventMsg.roundEndEvt
            (getRoomMeta st.meta roomId (now + 1000 * (t0 + 1)))
            (getAllPlayers st roomId (now + 1000 * (t0 + 1)))
            (getAllDrawings st roomId))] := by
  intro t0
  induction t0 with
  | zero =>
    intro now h
    rw [timerEvents_stop st roomId roundEnd now h]
    norm_num [countdown]
  | succ t ih =>
    intro now h
    rw [timerEvents_tick st roomId roundEnd now t h]
    rw [ih (now + 1000) (timeLeft_succ roundEnd now t h)]
    have harith : now + 1000 + 1000 * (t + 1) = now + 1000 * (t + 1 + 1) := by ring
    rw [harith]
    rfl

theorem setRoomMeta_roundEnd_skip (ms : String → RawMeta) (roomId : String)
    (p : MetaPatch) (hp : p.roundEnd = none) (room : String) :
    (setRoomMeta ms roomId p room).roundEnd = (ms room).roundEnd := by
  unfold setRoomMeta
  by_cases h : room = roomId
  · rw [if_pos h, h]
    simp [hsetMeta, hp]
  · rw [if_neg h]

theorem discStep_foldl_meta (sid : String) (now : Nat) :
    ∀ (rooms : List String) (acc : Store × List (Audience × EventMsg)),
      ((rooms.foldl (discStep sid now) acc).1).meta = acc.1.meta := by
  intro rooms
  induction rooms with
  | nil => intro acc; rfl
  | cons room tl ih =>
    intro acc
    show ((tl.foldl (discStep sid now) (discStep sid now acc room)).1).meta = _
    rw [ih (discStep sid now acc room)]
    rfl

theorem onDisconnect_meta (w : World) (sid : String) (now : Nat) :
    (onDisconnect w sid now).1.store.meta = w.store.meta := by
  unfold onDisconnect
  exact discStep_foldl_meta sid now _ (w.store, [])

theorem roundActive_iff (m : RoomMeta) (now : Nat) :
    roundActive m now = true ↔ ∃ r, m.roundEnd = some r ∧ now < r := by
  cases hm : m.roundEnd with
  | none => simp [roundActive, hm]
  | some r =>
    simp only [roundActive, hm, Bool.and_eq_true, decide_eq_true_eq,
      Option.some.injEq]
    constructor
    · rintro ⟨h0, hr⟩
      exact ⟨r, rfl, hr⟩
    · rintro ⟨r', hr', hlt⟩
      cases hr'
      exact ⟨by omega, hlt⟩

/-- `start_round` either leaves the meta key space untouched (both error
paths) or, when the caller's wallet matches the stored owner and no round
is active, merges exactly `roundEnd := now + 5 minutes`. -/
theorem startRoundH_meta (w : World) (sid roomId : String)
    (wallet : Option String) (now : Nat) :
    (startRoundH w sid roomId wallet now).1.store.meta = w.store.meta ∨
    (wallet = (getRoomMeta w.store.meta roomId now).owner ∧
     roundActive (getRoomMeta w.store.meta roomId now) now = false ∧
     (startRoundH w sid roomId wallet now).1.store.meta =
       setRoomMeta w.store.meta roomId
         { roundEnd := some (now + 5 * 60 * 1000) }) := by
  by_cases h1 : wallet = (getRoomMeta w.store.meta roomId now).owner
  · cases h2 : roundActive (getRoomMeta w.store.meta roomId now) now
    · right
      exact ⟨h1, rfl, by simp [startRoundH, h1, h2]⟩
    · left
      simp [startRoundH, h1, h2]
  · left
    simp [startRoundH, h1]

theorem createLobbyRoom_roundEnd (w : World) (sid : String)
    (entryFee wallet nickname : Option String) (roomId room : String) (now : Nat) :
    ((createLobbyRoom w sid entryFee wallet nickname roomId now).1.store.meta
        room).roundEnd = (w.store.meta room).roundEnd := by
  unfold createLobbyRoom
  by_cases hid : roomId = ""
  · simp [hid]
  · simp only [hid, if_false]
    exact setRoomMeta_roundEnd_skip w.store.meta roomId _ rfl room

theorem joinRoom_roundEnd (w : World) (sid roomId nickname wallet : String)
    (asset : Option String) (now : Nat) (room : String) :
    ((joinRoom w sid roomId nickname wallet asset now).1.store.meta
        room).roundEnd = (w.store.meta room).roundEnd := by
  unfold joinRoom
  exact setRoomMeta_roundEnd_skip w.store.meta roomId _ rfl room

/-- One dispatched event cannot move a still-future `roundEnd`. -/
theorem stepOp_roundEnd_frozen (w : World) (op : Op) (now : Nat) (room : String)
    (r : Nat) (hr : (w.store.meta room).roundEnd = some r) (hnow : now < r) :
    ((stepOp w op now).1.store.meta room).roundEnd = some r := by
  cases op with
  | createOp sid ef wal nick roomId =>
    rw [show (stepOp w (Op.createOp sid ef wal nick roomId) now) =
      createLobbyRoom w sid ef wal nick roomId now from rfl]
    rw [createLobbyRoom_roundEnd]
    exact hr
  | joinOp sid roomId nickname wallet asset =>
    rw [show (stepOp w (Op.joinOp sid roomId nickname wallet asset) now) =
      joinRoom w sid roomId nickname wallet asset now from rfl]
    rw [joinRoom_roundEnd]
    exact hr
  | startOp sid roomId wallet =>
    have hmeta :
        ((startRoundH w sid roomId wallet now).1.store.meta room).roundEnd =
          some r := by
      rcases startRoundH_meta w sid roomId wallet now with h | ⟨h1, h2, h3⟩
      · rw [h]; exact hr
      · by_cases hroom : room = roomId
        · exfalso
          have hact : roundActive (getRoomMeta w.store.meta roomId now) now = true := by
            rw [roundActive_iff]
            refine ⟨r, ?_, hnow⟩
            show (w.store.meta roomId).roundEnd = some r
            rw [← hroom]
            exact hr
          rw [hact] at h2
          cases h2
        · rw [h3]
          rw [show setRoomMeta w.store.meta roomId
              { roundEnd := some (now + 5 * 60 * 1000) } room = w.store.meta room
            from by unfold setRoomMeta; rw [if_neg hroom]]
          exact hr
    exact hmeta
  | nickOp sid roomId nickname => exact hr
  | drawOp sid roomId drawing => exact hr
  | discOp sid =>
    rw [show (stepOp w (Op.discOp sid) now).1 = (onDisconnect w sid now).1 from rfl]
    rw [onDisconnect_meta]
    exact hr

/-- A still-future `roundEnd` survives any trace of events whose
timestamps all precede it. -/
theorem runOps_roundEnd_frozen :
    ∀ (ops : List (Op × Nat)) (w : World) (room : String) (r : Nat),
      (w.store.meta room).roundEnd = some r →
      (∀ p ∈ ops, p.2 < r) →
      ((runOps w ops).store.meta room).roundEnd = some r := by
  intro ops
  induction ops with
  | nil => intro w room r hr _; exact hr
  | cons p tl ih =>
    intro w room r hr hts
    show ((runOps (stepOp w p.1 p.2).1 tl).store.meta room).roundEnd = some r
    refine ih _ room r ?_ ?_
    · exact stepOp_roundEnd_frozen w p.1 p.2 room r hr
        (hts p (List.mem_cons_self p tl))
    · intro q hq
      exact hts q (List.mem_cons_of_mem p hq)

/-- C2: once a room's stored `roundEnd` is a timestamp still in the future,
it is unchanged (in particular non-decreasing) across any trace of inbound
events whose times precede it (the round has not finalized); and the only
dispatched event that can change a room's `roundEnd` at all is `start_round`
for that room whose caller wallet equals the stored room owner. -/
theorem roundEnd_frozen_and_owner_gated (w : World) (room : String) :
    (∀ (ops : List (Op × Nat)) (r : Nat),
        (w.store.meta room).roundEnd = some r →
        (∀ p ∈ ops, p.2 < r) →
        ((runOps w ops).store.meta room).roundEnd = some r)
    ∧ (∀ (op : Op) (now : Nat),
        ((stepOp w op now).1.store.meta room).roundEnd ≠
          (w.store.meta room).roundEnd →
        ∃ sid wallet, op = Op.startOp sid room wallet ∧
          wallet = (getRoomMeta w.store.meta room now).owner) := by
  constructor
  · intro ops r hr hts
    exact runOps_roundEnd_frozen ops w room r hr hts
  · intro op now hch
    cases op with
    | createOp sid ef wal nick roomId =>
      exact absurd (createLobbyRoom_roundEnd w sid ef wal nick roomId room now) hch
    | joinOp sid roomId nickname wallet asset =>
      exact absurd (joinRoom_roundEnd w sid roomId nickname wallet asset now room) hch
    | startOp sid roomId wallet =>
      rcases startRoundH_meta w sid roomId wallet now with h | ⟨h1, _, h3⟩
      · exfalso
        apply hch
        rw [show (stepOp w (Op.startOp sid roomId wallet) now).1.store.meta =
          (startRoundH w sid roomId wallet now).1.store.meta from rfl, h]
      · by_cases hroom : roomId = room
        · subst hroom
          exact ⟨sid, wallet, rfl, h1⟩
        · exfalso
          apply hch
          rw [show (stepOp w (Op.startOp sid roomId wallet) now).1.store.meta =
            (startRoundH w sid roomId wallet now).1.store.meta from rfl, h3]
          unfold setRoomMeta
          rw [if_neg (fun hh => hroom hh.symm)]
    | nickOp sid roomId nickname => exact absurd rfl hch
    | drawOp sid roomId drawing => exact absurd rfl hch
    | discOp sid =>
      exfalso
      apply hch
      rw [show (stepOp w (Op.discOp sid) now).1.store.meta =
        (onDisconnect w sid now).1.store.meta from rfl, onDisconnect_meta]

/-- Witness for C2 at a concrete world: room `r1` has `roundEnd = 1`;
a drawing submission at time 0 leaves it at 1. -/
theorem roundEnd_frozen_witness :
    ((runOps priorWorld [(Op.drawOp "s2" "r1" "d", 0)]).store.meta "r1").roundEnd =
      some 1 := by
  have h := roundEnd_frozen_and_owner_gated priorWorld "r1"
  refine h.1 [(Op.drawOp "s2" "r1" "d", 0)] 1 (by decide) ?_
  intro p hp
  rcases List.mem_singleton.mp hp with rfl
  decide

/-- C3: `start_round` fails — i.e. emits a `start_round_error` to the
caller only — exactly when the caller's wallet differs from the stored
owner (message `"Only room owner can start round."`, checked first) or the
stored `roundEnd` is a future timestamp (message
`"Round already started."`); in both failure cases the returned world is
the input world (no store mutation) and no timer is started. -/
theorem start_round_failure_spec (w : World) (sid roomId : String)
    (wallet : Option String) (now : Nat) :
    ((∃ e, (startRoundH w sid roomId wallet now).2.1 =
        [(Audience.toCaller sid, EventMsg.startRoundError e)]) ↔
      (wallet ≠ (getRoomMeta w.store.meta roomId now).owner ∨
       ∃ r, (getRoomMeta w.store.meta roomId now).roundEnd = some r ∧ now < r))
    ∧ (wallet ≠ (getRoomMeta w.store.meta roomId now).owner →
        startRoundH w sid roomId wallet now =
          (w, [(Audience.toCaller sid,
            EventMsg.startRoundError "Only room owner can start round.")], none))
    ∧ (wallet = (getRoomMeta w.store.meta roomId now).owner →
        (∃ r, (getRoomMeta w.store.meta roomId now).roundEnd = some r ∧ now < r) →
        startRoundH w sid roomId wallet now =
          (w, [(Audience.toCaller sid,
            EventMsg.startRoundError "Round already started.")], none)) := by
  by_cases h1 : wallet = (getRoomMeta w.store.meta roomId now).owner
  · cases h2 : roundActive (getRoomMeta w.store.meta roomId now) now
    · have hres : (startRoundH w sid roomId wallet now).2.1 =
          [(Audience.toRoom roomId, EventMsg.roundStarted (now + 5 * 60 * 1000)
            (getRoomMeta w.store.meta roomId now).owner)] := by
        simp [startRoundH, h1, h2]
      refine ⟨⟨?_, ?_⟩, ?_, ?_⟩
      · rintro ⟨e, he⟩
        rw [hres] at he
        simp at he
      · rintro (hc | hex)
        · exact absurd h1 hc
        · exfalso
          have := (roundActive_iff _ now).mpr hex
          rw [h2] at this
          cases this
      · intro hc
        exact absurd h1 hc
      · intro _ hex
        exfalso
        have := (roundActive_iff _ now).mpr hex
        rw [h2] at this
        cases this
    · have hres : startRoundH w sid roomId wallet now =
          (w, [(Audience.toCaller sid,
            EventMsg.startRoundError "Round already started.")], none) := by
        simp [startRoundH, h1, h2]
      refine ⟨⟨?_, ?_⟩, ?_, ?_⟩
      · intro _
        right
        exact (roundActive_iff _ now).mp h2
      · intro _
        exact ⟨"Round already started.", by rw [hres]⟩
      · intro hc
        exact absurd h1 hc
      · intro _ _
        exact hres
  · have hres : startRoundH w sid roomId wallet now =
        (w, [(Audience.toCaller sid,
          EventMsg.startRoundError "Only room owner can start round.")], none) := by
      simp [startRoundH, h1]
    refine ⟨⟨?_, ?_⟩, ?_, ?_⟩
    · intro _
      left
      exact h1
    · intro _
      exact ⟨"Only room owner can start round.", by rw [hres]⟩
    · intro _
      exact hres
    · intro hc _
      exact absurd hc h1

/-- Witness for C3: on `priorWorld`, a non-owner wallet gets the
unauthorized error and the world is untouched. -/
theorem start_round_failure_witness :
    startRoundH priorWorld "s1" "r1" (some "W2") 200 =
      (priorWorld, [(Audience.toCaller "s1",
        EventMsg.startRoundError "Only room owner can start round.")], none) := by
  have h := start_round_failure_spec priorWorld "s1" "r1" (some "W2") 200
  exact h.2.1 (by decide)

/-- C4: a successful `start_round` at time `now` persists
`roundEnd = now + 300000` (the fixed 5-minute duration `5 * 60 * 1000`,
nothing about the room configures it) as the sole merged field, broadcasts
`round_started {roundEnd, owner}` to the whole room, and installs the
one-second interval with that captured `roundEnd`. -/
theorem start_round_success_spec (w : World) (sid roomId : String)
    (wallet : Option String) (now : Nat)
    (hown : wallet = (getRoomMeta w.store.meta roomId now).owner)
    (hidle : ¬ ∃ r, (getRoomMeta w.store.meta roomId now).roundEnd = some r ∧
      now < r) :
    ((startRoundH w sid roomId wallet now).1.store.meta roomId).roundEnd =
        some (now + 300000)
    ∧ (startRoundH w sid roomId wallet now).1.store.meta =
        setRoomMeta w.store.meta roomId { roundEnd := some (now + 300000) }
    ∧ (startRoundH w sid roomId wallet now).2.1 =
        [(Audience.toRoom roomId, EventMsg.roundStarted (now + 300000)
          (getRoomMeta w.store.meta roomId now).owner)]
    ∧ (startRoundH w sid roomId wallet now).2.2 = some (now + 300000) := by
  have h2 : roundActive (getRoomMeta w.store.meta roomId now) now = false := by
    cases h : roundActive (getRoomMeta w.store.meta roomId now) now
    · rfl
    · exact absurd ((roundActive_iff _ now).mp h) hidle
  simp only [getRoomMeta, parseRoomMeta] at h2 hown ⊢
  refine ⟨?_, ?_, ?_, ?_⟩
  · simp [startRoundH, getRoomMeta, parseRoomMeta, h2, hown, setRoomMeta, hsetMeta]
  · simp [startRoundH, getRoomMeta, parseRoomMeta, h2, hown]
  · simp [startRoundH, getRoomMeta, parseRoomMeta, h2, hown]
  · simp [startRoundH, getRoomMeta, parseRoomMeta, h2, hown, setRoomMeta, hsetMeta]

/-- Witness for C4: the owner `W1` of `priorWorld`'s room `r1` starts a
round at time 200 (the stored round ended at 1), yielding
`roundEnd = 200 + 300000`. -/
theorem start_round_success_witness :
    ((startRoundH priorWorld "s1" "r1" (some "W1") 200).1.store.meta "r1").roundEnd =
        some 300200
    ∧ (startRoundH priorWorld "s1" "r1" (some "W1") 200).2.2 = some 300200 := by
  have h := start_round_success_spec priorWorld "s1" "r1" (some "W1") 200
    (by decide) (by simp [getRoomMeta, parseRoomMeta, priorWorld])
  exact ⟨h.1, h.2.2.2⟩

theorem filter_isRoundEnd_timerMap (roomId : String) (l : List Nat) :
    (l.map (fun t => (Audience.toRoom roomId, EventMsg.timerEvt t))).filter
      isRoundEndEvt = [] := by
  induction l with
  | nil => rfl
  | cons a tl ih =>
    rw [List.map_cons, List.filter_cons]
    simp only [show isRoundEndEvt (Audience.toRoom roomId, EventMsg.timerEvt a) =
      false from rfl, if_false]
    exact ih

/-- C5: the interval started for a round broadcasts, at each tick, exactly
`timeLeft = max(0, floor((roundEnd − tickTime)/1000))`; the broadcast tick
values form a non-increasing sequence ending in exactly 0, and when 0 is
reached the stream stops with exactly one consolidated `round_end` event
holding the room meta, player map and drawing map read back from the store. -/
theorem timer_tick_monotone_single_end (st : Store) (roomId : String)
    (roundEnd now : Nat) :
    ∃ t0 endT,
      timerEvents st roomId roundEnd now =
        (countdown t0).map
          (fun t => (Audience.toRoom roomId, EventMsg.timerEvt t)) ++
        [(Audience.toRoom roomId, EventMsg.roundEndEvt
            (getRoomMeta st.meta roomId endT)
            (getAllPlayers st roomId endT)
            (getAllDrawings st roomId))]
      ∧ (∀ k, k ≤ t0 →
          (countdown t0)[k]? = some (timeLeft roundEnd (now + 1000 * (k + 1))))
      ∧ List.Chain' (fun a b => b ≤ a) (countdown t0)
      ∧ (countdown t0).getLast? = some 0
      ∧ ((timerEvents st roomId roundEnd now).filter isRoundEndEvt).length = 1 := by
  refine ⟨timeLeft roundEnd (now + 1000),
    now + 1000 * (timeLeft roundEnd (now + 1000) + 1),
    timerEvents_closed st roomId roundEnd _ now rfl, ?_,
    countdown_chain _, countdown_getLast? _, ?_⟩
  · intro k hk
    rw [countdown_getElem? _ k hk]
    congr 1
    simp only [timeLeft] at hk ⊢
    omega
  · rw [timerEvents_closed st roomId roundEnd _ now rfl, List.filter_append,
      filter_isRoundEnd_timerMap]
    rfl

/-- Witness for C5 at concrete inputs (round of 3 seconds, started at 0). -/
theorem timer_tick_witness :
    ∃ t0 endT,
      timerEvents discWorld.store "abc" 3000 0 =
        (countdown t0).map
          (fun t => (Audience.toRoom "abc", EventMsg.timerEvt t)) ++
        [(Audience.toRoom "abc", EventMsg.roundEndEvt
            (getRoomMeta discWorld.store.meta "abc" endT)
            (getAllPlayers discWorld.store "abc" endT)
            (getAllDrawings discWorld.store "abc"))]
      ∧ (∀ k, k ≤ t0 →
          (countdown t0)[k]? = some (timeLeft 3000 (0 + 1000 * (k + 1))))
      ∧ List.Chain' (fun a b => b ≤ a) (countdown t0)
      ∧ (countdown t0).getLast? = some 0
      ∧ ((timerEvents discWorld.store "abc" 3000 0).filter isRoundEndEvt).length
          = 1 :=
  timer_tick_monotone_single_end discWorld.store "abc" 3000 0

/-- C6: merging any sequence of partial meta patches into a fresh room and
then reading yields, per field, the last supplied value — later writes
override earlier ones, unsupplied (`undefined`) fields are untouched — and
the documented default where no call supplied the field: `fee = ""`,
`createdAt = now`, `roundEnd = null`, `asset`/`owner` unset. -/
theorem merge_then_read_union (ps : List MetaPatch) (roomId : String) (now : Nat) :
    getRoomMeta (ps.foldl (fun ms p => setRoomMeta ms roomId p)
        (fun _ => RawMeta.empty)) roomId now =
      { fee := (lastSet (fun p => p.fee) ps).getD ""
      , createdAt := (lastSet (fun p => p.createdAt) ps).getD now
      , asset := lastSet (fun p => p.asset) ps
      , roundEnd := lastSet (fun p => p.roundEnd) ps
      , owner := lastSet (fun p => p.owner) ps } := by
  unfold getRoomMeta parseRoomMeta
  rw [foldl_setRoomMeta_at roomId ps (fun _ => RawMeta.empty)]
  have hfee := foldl_hsetMeta_proj (fun raw => raw.fee) (fun p => p.fee)
    (fun raw p => by cases hp : p.fee <;> simp [hsetMeta, hp]) ps RawMeta.empty
  have hca := foldl_hsetMeta_proj (fun raw => raw.createdAt) (fun p => p.createdAt)
    (fun raw p => by cases hp : p.createdAt <;> simp [hsetMeta, hp]) ps RawMeta.empty
  have has := foldl_hsetMeta_proj (fun raw => raw.asset) (fun p => p.asset)
    (fun raw p => by cases hp : p.asset <;> simp [hsetMeta, hp]) ps RawMeta.empty
  have hre := foldl_hsetMeta_proj (fun raw => raw.roundEnd) (fun p => p.roundEnd)
    (fun raw p => by cases hp : p.roundEnd <;> simp [hsetMeta, hp]) ps RawMeta.empty
  have how := foldl_hsetMeta_proj (fun raw => raw.owner) (fun p => p.owner)
    (fun raw p => by cases hp : p.owner <;> simp [hsetMeta, hp]) ps RawMeta.empty
  simp only [RoomMeta.mk.injEq]
  refine ⟨?_, ?_, ?_, ?_, ?_⟩
  · rw [hfee]
    cases lastSet (fun p => p.fee) ps <;> simp [RawMeta.empty]
  · rw [hca]
    cases lastSet (fun p => p.createdAt) ps <;> simp [RawMeta.empty]
  · rw [has]
    cases lastSet (fun p => p.asset) ps <;> simp [RawMeta.empty]
  · rw [hre]
    cases lastSet (fun p => p.roundEnd) ps <;> simp [RawMeta.empty]
  · rw [how]
    cases lastSet (fun p => p.owner) ps <;> simp [RawMeta.empty]

/-- C7 counterexample: room `r1` of `priorWorld` has a stored
`roundEnd = 1`; `create_lobby_room` for the same id passes `roundEnd: null`
to the merge, which skips null values, so the subsequent read does NOT
return `roundEnd = null` — refuting the claim's "regardless of any meta
previously stored under that room id". -/
theorem create_lobby_room_stale_roundEnd :
    (getRoomMeta (createLobbyRoom priorWorld "s1" (some "10") (some "W2")
        (some "alice") "r1" 200).1.store.meta "r1" 200).roundEnd ≠ none := by
  decide

/-- C7 (amended): a successful `create_lobby_room` with a non-empty room id
includes `roundEnd: null` in its merge request, but null-valued fields are
skipped by the store merge; hence the subsequent read returns
`roundEnd = null` (the `NoRound` state) provided no `roundEnd` was
previously stored for that id — in particular for a fresh room, where the
caller also becomes the room's sole registered player — and the caller
receives only the `room_created` acknowledgment. -/
theorem create_lobby_room_fresh_spec (w : World) (sid : String)
    (fee wal nick roomId : String) (now : Nat)
    (hid : roomId ≠ "")
    (hfresh : (w.store.meta roomId).roundEnd = none)
    (hnp : w.store.players = []) :
    ((createLobbyRoom w sid (some fee) (some wal) (some nick) roomId
        now).1.store.meta roomId).roundEnd = none
    ∧ getAllPlayers (createLobbyRoom w sid (some fee) (some wal) (some nick)
        roomId now).1.store roomId now =
        [(sid, { nickname := nick, wallet := wal, joinedAt := now })]
    ∧ (createLobbyRoom w sid (some fee) (some wal) (some nick) roomId now).2 =
        [(Audience.toCaller sid, EventMsg.roomCreated roomId)] := by
  refine ⟨?_, ?_, ?_⟩
  · rw [createLobbyRoom_roundEnd]
    exact hfresh
  · simp [createLobbyRoom, hid, hnp, getAllPlayers, alSet, alDel, alGet,
      hsetPlayer, parsePlayerData]
  · simp [createLobbyRoom, hid]

/-- Witness for the amended C7 on a fresh world. -/
theorem create_lobby_room_fresh_witness :
    ((createLobbyRoom emptyWorld "s1" (some "10") (some "W1") (some "bob") "r9"
        5).1.store.meta "r9").roundEnd = none
    ∧ (createLobbyRoom emptyWorld "s1" (some "10") (some "W1") (some "bob") "r9"
        5).2 = [(Audience.toCaller "s1", EventMsg.roomCreated "r9")] := by
  have h := create_lobby_room_fresh_spec emptyWorld "s1" "10" "W1" "bob" "r9" 5
    (by decide) (by rfl) (by rfl)
  exact ⟨h.1, h.2.2⟩

/-- C8: `drawing_submit(roomId, drawing)` stores the blob at
(room id, session id), overwriting any previous entry so that exactly one
entry remains for that pair, leaves every other key unchanged, and
broadcasts `drawing {id: sessionId, data: drawing}` to the whole room — an
audience containing exactly the room's joined connections, the sender
included when joined. -/
theorem drawing_submit_spec (w : World) (sid roomId drawing : String) :
    alGet (drawingSubmit w sid roomId drawing).1.store.drawings (roomId, sid) =
      some drawing
    ∧ ((drawingSubmit w sid roomId drawing).1.store.drawings.filter
        (fun e => e.1 = (roomId, sid))).length = 1
    ∧ (∀ k, k ≠ (roomId, sid) →
        alGet (drawingSubmit w sid roomId drawing).1.store.drawings k =
          alGet w.store.drawings k)
    ∧ (drawingSubmit w sid roomId drawing).2 =
        [(Audience.toRoom roomId, EventMsg.drawingEvt sid drawing)]
    ∧ (∀ s, receivesB (drawingSubmit w sid roomId drawing).1 s
        (Audience.toRoom roomId) = (w.members roomId).contains s) := by
  refine ⟨?_, ?_, ?_, ?_, ?_⟩
  · exact alGet_alSet_self w.store.drawings (roomId, sid) drawing
  · exact alSet_unique w.store.drawings (roomId, sid) drawing
  · intro k hk
    exact alGet_alSet_ne w.store.drawings (roomId, sid) k drawing hk
  · rfl
  · intro s
    rfl

/-- Witness for C8: resubmission overwrites the old blob of `s1` in room
`abc`, and the broadcast goes to the room. -/
theorem drawing_submit_witness :
    alGet (drawingSubmit discWorld "s1" "abc" "blob2").1.store.drawings
      ("abc", "s1") = some "blob2"
    ∧ alGet (drawingSubmit discWorld "s1" "abc" "blob2").1.store.drawings
      ("abc", "s2") = alGet discWorld.store.drawings ("abc", "s2") := by
  have h := drawing_submit_spec discWorld "s1" "abc" "blob2"
  exact ⟨h.1, h.2.2.1 ("abc", "s2") (by decide)⟩

/-- C9: `create_lobby_room` for an already-seen room id unconditionally
overwrites `fee`, `createdAt` and `owner` (no unseen-id check exists), so
any caller's wallet `W` becomes the owner and a subsequent `start_round`
with `W` can never fail the owner guard. -/
theorem create_lobby_room_takeover (w : World) (sid : String)
    (fee W nick roomId : String) (now : Nat) (hid : roomId ≠ "") :
    ((createLobbyRoom w sid (some fee) (some W) (some nick) roomId
        now).1.store.meta roomId).fee = some fee
    ∧ ((createLobbyRoom w sid (some fee) (some W) (some nick) roomId
        now).1.store.meta roomId).createdAt = some now
    ∧ ((createLobbyRoom w sid (some fee) (some W) (some nick) roomId
        now).1.store.meta roomId).owner = some W
    ∧ ∀ (sid2 : String) (now2 : Nat),
        (startRoundH (createLobbyRoom w sid (some fee) (some W) (some nick)
            roomId now).1 sid2 roomId (some W) now2).2.1 ≠
          [(Audience.toCaller sid2,
            EventMsg.startRoundError "Only room owner can start round.")] := by
  have hmeta : (createLobbyRoom w sid (some fee) (some W) (some nick) roomId
      now).1.store.meta roomId =
      hsetMeta (w.store.meta roomId)
        { fee := some fee, createdAt := some now, roundEnd := none
        , owner := some W } := by
    simp [createLobbyRoom, hid, setRoomMeta]
  refine ⟨?_, ?_, ?_, ?_⟩
  · rw [hmeta]; rfl
  · rw [hmeta]; rfl
  · rw [hmeta]; rfl
  · intro sid2 now2
    have hown : (getRoomMeta (createLobbyRoom w sid (some fee) (some W)
        (some nick) roomId now).1.store.meta roomId now2).owner = some W := by
      unfold getRoomMeta parseRoomMeta
      rw [hmeta]
      simp [hsetMeta]
    cases h2 : roundActive (getRoomMeta (createLobbyRoom w sid (some fee)
        (some W) (some nick) roomId now).1.store.meta roomId now2) now2
    · simp [startRoundH, hown, h2]
    · simp [startRoundH, hown, h2]

/-- Witness for C9: on `priorWorld`, whose room `r1` is owned by `W1`,
wallet `W2` re-creates `r1` and becomes its owner; its `start_round` does
not hit the owner guard. -/
theorem create_lobby_room_takeover_witness :
    ((createLobbyRoom priorWorld "s1" (some "10") (some "W2") (some "alice")
        "r1" 200).1.store.meta "r1").owner = some "W2"
    ∧ (startRoundH (createLobbyRoom priorWorld "s1" (some "10") (some "W2")
        (some "alice") "r1" 200).1 "s1" "r1" (some "W2") 999).2.1 ≠
        [(Audience.toCaller "s1",
          EventMsg.startRoundError "Only room owner can start round.")] := by
  have h := create_lobby_room_takeover priorWorld "s1" "10" "W2" "alice" "r1"
    200 (by decide)
  exact ⟨h.2.2.1, h.2.2.2 "s1" 999⟩

/-- C10: `create_lobby_room` never subscribes the creating connection to
the room (`socket.join` is absent): the membership tables are unchanged,
the only emitted event is the direct `room_created` acknowledgment, and —
as long as the creator has not joined — it receives no room-wide broadcast
for that room while still receiving its direct acknowledgments. -/
theorem create_lobby_room_no_join (w : World) (sid : String)
    (ef wal nick : Option String) (roomId : String) (now : Nat)
    (hid : roomId ≠ "") (hm : (w.members roomId).contains sid = false) :
    (createLobbyRoom w sid ef wal nick roomId now).1.members = w.members
    ∧ (createLobbyRoom w sid ef wal nick roomId now).1.srooms = w.srooms
    ∧ (createLobbyRoom w sid ef wal nick roomId now).2 =
        [(Audience.toCaller sid, EventMsg.roomCreated roomId)]
    ∧ receivesB (createLobbyRoom w sid ef wal nick roomId now).1 sid
        (Audience.toRoom roomId) = false
    ∧ receivesB (createLobbyRoom w sid ef wal nick roomId now).1 sid
        (Audience.toCaller sid) = true := by
  refine ⟨?_, ?_, ?_, ?_, ?_⟩
  · simp [createLobbyRoom, hid]
  · simp [createLobbyRoom, hid]
  · simp [createLobbyRoom, hid]
  · have hmem : (createLobbyRoom w sid ef wal nick roomId now).1.members =
        w.members := by simp [createLobbyRoom, hid]
    rw [show receivesB (createLobbyRoom w sid ef wal nick roomId now).1 sid
        (Audience.toRoom roomId) =
      ((createLobbyRoom w sid ef wal nick roomId now).1.members
        roomId).contains sid from rfl]
    rw [hmem]
    exact hm
  · simp [receivesB]

/-- Witness for C10 on a fresh world. -/
theorem create_lobby_room_no_join_witness :
    (createLobbyRoom emptyWorld "s1" (some "10") (some "W1") (some "bob") "r9"
        5).2 = [(Audience.toCaller "s1", EventMsg.roomCreated "r9")]
    ∧ receivesB (createLobbyRoom emptyWorld "s1" (some "10") (some "W1")
        (some "bob") "r9" 5).1 "s1" (Audience.toRoom "r9") = false := by
  have h := create_lobby_room_no_join emptyWorld "s1" (some "10") (some "W1")
    (some "bob") "r9" 5 (by decide) (by rfl)
  exact ⟨h.2.2.1, h.2.2.2.1⟩

/-- C1 divergence: connection `s1` of `discWorld` joined room `abc` (an id
that does not start with `room:`, like every lobby-generated id); on
disconnect the handler's `startsWith("room:")` filter discards the room, so
the player record and the drawing blob both survive and no `users`
broadcast is emitted — the claimed cleanup never happens. -/
theorem disconnect_cleanup_misses_room :
    alGet (onDisconnect discWorld "s1" 50).1.store.players ("abc", "s1") =
      some { nickname := some "bob", wallet := some "0xW", joinedAt := some 7 }
    ∧ alGet (onDisconnect discWorld "s1" 50).1.store.drawings ("abc", "s1") =
      some "blob"
    ∧ (onDisconnect discWorld "s1" 50).2 = [] := by
  decide

end Scribo
